import Mathlib

/-!
Verification of the SciTokens XRootD authorization plugin (`src/scitokens.cpp`)
against its natural-language specification.

Shallow embedding conventions:
* C++ `std::string` values are byte strings; we model them as Lean `String`
  and compare their underlying character lists byte-for-byte (no normalization
  happens in the source, so the representation is faithful for every input the
  code distinguishes).
* `uint64_t` clock values and privilege bitmasks are modelled as `Nat`; none of
  the verified properties depend on 64-bit wrap-around (times and masks stay
  far below `2^64`).
* The coarse monotonic clock (`monotonic_time`, whole seconds) is passed in as
  an explicit `now : Nat` parameter; the two reads performed inside one
  `Access` call happen in the same coarse second and are modelled as one value.
* Fallible code is modelled with `Option`/`Except`; C++ undefined behavior
  (the iterator-invalidation in the expiry sweep) is modelled as `none`.
-/

set_option autoImplicit false

/-- The `Access_Operation` enumeration from `XrdAccAuthorize.hh`, exactly the
constructors handled by the `switch` in `AddPriv` (scitokens.cpp lines 43-87). -/
inductive Access_Operation where
  | AOP_Any
  | AOP_Chmod
  | AOP_Chown
  | AOP_Create
  | AOP_Delete
  | AOP_Insert
  | AOP_Lock
  | AOP_Mkdir
  | AOP_Read
  | AOP_Readdir
  | AOP_Rename
  | AOP_Stat
  | AOP_Update
  deriving DecidableEq, Repr

/- The `XrdAccPrivs` constants referenced by `AddPriv`.  The numeric values
live in the external XRootD header `XrdAccPrivs.hh` (not part of this
repository); following the spec (§4.1: every operation other than `Any` maps
to one distinct bit) we model them as distinct bits.  No theorem below depends
on the concrete numeric values, only on the bitwise-or structure of the code. -/

def XrdAccPriv_None : Nat := 0
def XrdAccPriv_Chmod : Nat := 1
def XrdAccPriv_Chown : Nat := 2
def XrdAccPriv_Create : Nat := 4
def XrdAccPriv_Delete : Nat := 8
def XrdAccPriv_Insert : Nat := 16
def XrdAccPriv_Lock : Nat := 32
def XrdAccPriv_Mkdir : Nat := 64
def XrdAccPriv_Read : Nat := 128
def XrdAccPriv_Readdir : Nat := 256
def XrdAccPriv_Rename : Nat := 512
def XrdAccPriv_Lookup : Nat := 1024
def XrdAccPriv_Update : Nat := 2048

/-- `AddPriv` (scitokens.cpp lines 43-87): ors the privilege bit for `op` into
`privs`.  `AOP_Any` adds nothing; `AOP_Stat` maps to the Lookup bit. -/
def AddPriv (op : Access_Operation) (privs : Nat) : Nat :=
  match op with
  | .AOP_Any => privs
  | .AOP_Chmod => privs ||| XrdAccPriv_Chmod
  | .AOP_Chown => privs ||| XrdAccPriv_Chown
  | .AOP_Create => privs ||| XrdAccPriv_Create
  | .AOP_Delete => privs ||| XrdAccPriv_Delete
  | .AOP_Insert => privs ||| XrdAccPriv_Insert
  | .AOP_Lock => privs ||| XrdAccPriv_Lock
  | .AOP_Mkdir => privs ||| XrdAccPriv_Mkdir
  | .AOP_Read => privs ||| XrdAccPriv_Read
  | .AOP_Readdir => privs ||| XrdAccPriv_Readdir
  | .AOP_Rename => privs ||| XrdAccPriv_Rename
  | .AOP_Stat => privs ||| XrdAccPriv_Lookup
  | .AOP_Update => privs ||| XrdAccPriv_Update

/-- The privilege bit contributed by one operation: `AddPriv op 0`.
This is the "mapped privilege" of a rule in the specification's wording. -/
def opPriv (op : Access_Operation) : Nat :=
  match op with
  | .AOP_Any => 0
  | .AOP_Chmod => XrdAccPriv_Chmod
  | .AOP_Chown => XrdAccPriv_Chown
  | .AOP_Create => XrdAccPriv_Create
  | .AOP_Delete => XrdAccPriv_Delete
  | .AOP_Insert => XrdAccPriv_Insert
  | .AOP_Lock => XrdAccPriv_Lock
  | .AOP_Mkdir => XrdAccPriv_Mkdir
  | .AOP_Read => XrdAccPriv_Read
  | .AOP_Readdir => XrdAccPriv_Readdir
  | .AOP_Rename => XrdAccPriv_Rename
  | .AOP_Stat => XrdAccPriv_Lookup
  | .AOP_Update => XrdAccPriv_Update

/-- `typedef std::vector<std::pair<Access_Operation, std::string>> AccessRulesRaw;` -/
abbrev AccessRulesRaw := List (Access_Operation × String)

/-- The `XrdAccRules` class (scitokens.cpp lines 92-127).  `parse` simply
copies the raw rule list into `m_rules`, so a constructed-and-parsed object is
the record of its three fields. -/
structure XrdAccRules where
  m_rules : AccessRulesRaw
  m_expiry_time : Nat
  m_username : String
  deriving DecidableEq, Repr

/-- `XrdAccRules::apply` (lines 102-110).  The requested operation parameter
is unnamed and unused in the source.  The match test transcribes
`!path.compare(0, rule.second.size(), rule.second, 0, rule.second.size())`:
the first `rule.second.size()` bytes of `path` (clamped to `path`'s length)
are compared with the whole of `rule.second`, so the test succeeds exactly
when `path.data.take rule.second.length = rule.second.data`. -/
def XrdAccRules.apply (rs : XrdAccRules) (_oper : Access_Operation) (path : String) : Nat :=
  rs.m_rules.foldl
    (fun privs rule =>
      if path.data.take rule.2.data.length = rule.2.data then AddPriv rule.1 privs
      else privs)
    XrdAccPriv_None

/-- `XrdAccRules::expired` (line 112): `monotonic_time() > m_expiry_time`,
with the clock read passed in as `now`. -/
def XrdAccRules.expired (rs : XrdAccRules) (now : Nat) : Bool :=
  decide (rs.m_expiry_time < now)

/-- The state of an `XrdAccSciTokens` object that the verified operations
touch: `m_map` (the token → RuleSet cache, a `std::map` modelled as an
association list with unique keys; `std::map` iterates in key order, but no
theorem below depends on iteration order), `m_next_clean`, and `m_audiences`.
`m_chain`, `m_parms` and the logger are passed separately / not modelled. -/
structure XrdAccSciTokensState where
  m_map : List (String × XrdAccRules)
  m_next_clean : Nat
  m_audiences : List String
  deriving DecidableEq, Repr

/-- `static constexpr uint64_t m_expiry_secs = 60;` (line 291). -/
def m_expiry_secs : Nat := 60

/-- One pass of the sweep loop in `XrdAccSciTokens::Check` (lines 276-280):

    for (auto iter = m_map.begin(); iter != m_map.end(); iter++) {
        if (iter->second->expired()) { m_map.erase(iter); }
    }

`std::map::erase(iter)` invalidates `iter`, and the loop header then executes
`iter++` on the invalidated iterator — undefined behavior per the C++
standard.  We model a loop step on an unexpired entry as moving past it, and
the erase-then-increment on an expired entry as `none` (undefined). -/
def sweepPass (now : Nat) : List (String × XrdAccRules) → Option (List (String × XrdAccRules))
  | [] => some []
  | e :: rest =>
    if e.2.expired now then none
    else (sweepPass now rest).map (fun m => e :: m)

/-- The gate of `XrdAccSciTokens::Check` (line 274): the sweep pass runs
exactly when `now > m_next_clean`. -/
def sweepDue (now : Nat) (st : XrdAccSciTokensState) : Bool :=
  decide (st.m_next_clean < now)

/-- `XrdAccSciTokens::Check` (lines 272-281).  Note that `m_next_clean` is
never written: the function returns after the pass without rescheduling. -/
def Check (now : Nat) (st : XrdAccSciTokensState) : Option XrdAccSciTokensState :=
  if now ≤ st.m_next_clean then some st
  else (sweepPass now st.m_map).map (fun m => { st with m_map := m })

/-- `m_map.find(authz)` (line 159) on the association-list model. -/
def mapFind (m : List (String × XrdAccRules)) (k : String) : Option XrdAccRules :=
  match m.find? (fun e => e.1 == k) with
  | some e => some e.2
  | none => none

/-- `m_map[authz] = access_rules` (line 180): overwrite the entry for `k` if
present, otherwise add one. -/
def mapInsert (m : List (String × XrdAccRules)) (k : String) (v : XrdAccRules) :
    List (String × XrdAccRules) :=
  match m with
  | [] => [(k, v)]
  | e :: rest => if e.1 == k then (k, v) :: rest else e :: mapInsert rest k v

/-- The guarded lookup in `Access` (lines 157-163): the cached RuleSet is
taken only if the entry exists and is not expired. -/
def lookupValid (now : Nat) (st : XrdAccSciTokensState) (tok : String) : Option XrdAccRules :=
  match mapFind st.m_map tok with
  | some rs => if rs.expired now then none else some rs
  | none => none

/-- The validator interface consumed by `Access`: `GenerateAcls` produces
`(cache_expiry, rules, username)` on success; `none` covers both a `false`
return and a thrown-and-caught exception (lines 169-178), which `Access`
treats identically (fall through to the chain). -/
abbrev AclGenerator := String → Option (Nat × AccessRulesRaw × String)

/-- The cache-miss branch of `Access` (lines 164-181): invoke the validator;
on success build the RuleSet with expiry `now + cache_expiry` (line 170),
parse the rules into it (line 171) and store it (line 180); on failure leave
the state unchanged (the early return at line 173/177 precedes the insert). -/
def genBranch (gen : AclGenerator) (now : Nat) (tok : String) (st : XrdAccSciTokensState) :
    Option XrdAccRules × XrdAccSciTokensState :=
  match gen tok with
  | some (cache_expiry, rules, username) =>
    let rs : XrdAccRules := ⟨rules, now + cache_expiry, username⟩
    (some rs, { st with m_map := mapInsert st.m_map tok rs })
  | none => (none, st)

/-- RuleSet resolution in `Access` (lines 154-181): use the valid cached
entry if there is one, otherwise run the validator branch. -/
def resolveRules (gen : AclGenerator) (now : Nat) (st : XrdAccSciTokensState) (tok : String) :
    Option XrdAccRules × XrdAccSciTokensState :=
  match lookupValid now st tok with
  | some rs => (some rs, st)
  | none => genBranch gen now tok st

/-- The `XrdSecEntity` seen by this plugin: the `name` pointer (null = no
identity assigned) plus all its other fields, abstracted as `rest` so that
theorems can state that they are untouched. -/
structure XrdSecEntity (ε : Type) where
  name : Option String
  rest : ε
  deriving DecidableEq, Repr

/-- The identity assignment in `Access` (lines 182-185): copy the RuleSet's
username into the entity exactly when it is non-empty and the entity has no
name yet. -/
def identityUpdate {ε : Type} (username : String) (ent : XrdSecEntity ε) : XrdSecEntity ε :=
  if username ≠ "" ∧ ent.name = none then { ent with name := some username } else ent

/-- The chained authorizer (`m_chain`), an external capability: given the
entity, the env's authz value, the path and the operation it returns a
privilege mask. -/
abbrev ChainAuthz (ε : Type) := XrdSecEntity ε → Option String → String → Access_Operation → Nat

/-- `m_chain ? m_chain->Access(Entity, path, oper, env) : XrdAccPriv_None`
(lines 152, 173, 177). -/
def chainOrNone {ε : Type} (chain : Option (ChainAuthz ε)) (ent : XrdSecEntity ε)
    (authz : Option String) (path : String) (oper : Access_Operation) : Nat :=
  match chain with
  | some c => c ent authz path oper
  | none => XrdAccPriv_None

/-- The outcome of one `Access` call: the returned privilege mask, the
updated plugin state, and the (possibly updated) entity. -/
structure AccessResult (ε : Type) where
  priv : Nat
  state : XrdAccSciTokensState
  entity : XrdSecEntity ε
  deriving DecidableEq, Repr

/-- `XrdAccSciTokens::Access` (lines 145-188), parameterized by the validator
`gen` and the chained authorizer `chain`.  `authz` is `env->Get("authz")`
(`none` when `env` is null or carries no authz).  A `none` result propagates
the undefined behavior of the sweep (see `sweepPass`); every defined path
returns `some`. -/
def AccessWith {ε : Type} (gen : AclGenerator) (chain : Option (ChainAuthz ε))
    (st : XrdAccSciTokensState) (now : Nat) (Entity : XrdSecEntity ε)
    (authz : Option String) (path : String) (oper : Access_Operation) :
    Option (AccessResult ε) :=
  match authz with
  | none => some ⟨chainOrNone chain Entity none path oper, st, Entity⟩
  | some tok =>
    match Check now st with
    | none => none
    | some st1 =>
      match resolveRules gen now st1 tok with
      | (none, st2) => some ⟨chainOrNone chain Entity (some tok) path oper, st2, Entity⟩
      | (some rs, st2) =>
        let ent' := identityUpdate rs.m_username Entity
        let result := rs.apply oper path
        some ⟨if result = XrdAccPriv_None then chainOrNone chain ent' (some tok) path oper
              else result,
              st2, ent'⟩

/-- `XrdAccSciTokens::GenerateAcls` (lines 207-209): the validator stage in
this repository is a stub that always returns `false`. -/
def GenerateAcls (_authz : String) : Option (Nat × AccessRulesRaw × String) := none

/-- `XrdAccSciTokens::Access` with this repository's `GenerateAcls` stub. -/
def Access {ε : Type} (chain : Option (ChainAuthz ε)) (st : XrdAccSciTokensState)
    (now : Nat) (Entity : XrdSecEntity ε) (authz : Option String) (path : String)
    (oper : Access_Operation) : Option (AccessResult ε) :=
  AccessWith GenerateAcls chain st now Entity authz path oper

/-- Observation function used to state the entity-frame property: the RuleSet
(if any) that a given `Access` call resolves and applies. -/
def resolvedRules {ε : Type} (gen : AclGenerator) (now : Nat) (st : XrdAccSciTokensState)
    (authz : Option String) (_Entity : XrdSecEntity ε) : Option XrdAccRules :=
  match authz with
  | none => none
  | some tok =>
    match Check now st with
    | none => none
    | some st1 => (resolveRules gen now st1 tok).1

/-- A JSON value as produced by `picojson::parse`.  picojson itself is an
external vendored library (not under `src/`); only the shape of its parsed
values matters to `Reconfig`, which inspects "is an array" / "is a string". -/
inductive JVal where
  | str : String → JVal
  | num : Int → JVal
  | bool : Bool → JVal
  | null : JVal
  | arr : List JVal → JVal
  | obj : List (String × JVal) → JVal

/-- Modelled from the spec: the view of one parsed INI section that
`Reconfig` consumes through the vendored `INIReader` (not under `src/`).
`audience` and `audience_json` hold `reader.Get(section, key, "")`: the raw
value if the key is present, `""` otherwise. -/
structure IniSection where
  name : String
  audience : String
  audience_json : String
  deriving DecidableEq, Repr

/-- Modelled from the spec: the outcome of constructing `INIReader` on the
configuration source (not under `src/`).  `openFail` is `ParseError() < 0`,
`lineFail n` is `ParseError() = n > 0`, and `ok` carries `reader.Sections()`
in file order (§4.5: "concatenation of all matching sections' values, in
file order"). -/
inductive IniParse where
  | openFail : IniParse
  | lineFail : Nat → IniParse
  | ok : List IniSection → IniParse
  deriving DecidableEq, Repr

/-- `std::tolower` on an unsigned char, as used at lines 228-230 (ASCII case
folding in the "C" locale). -/
def asciiToLower (c : Char) : Char :=
  if 'A' ≤ c ∧ c ≤ 'Z' then Char.ofNat (c.toNat + 32) else c

/-- `section_lower.substr(0, 6) == "global"` (line 232) after the
`std::tolower` transform. -/
def isGlobalSection (name : String) : Bool :=
  (name.data.map asciiToLower).take 6 == "global".data

/-- The delimiter test of the audience splitting loop (lines 237-238):
a comma or a space. -/
def isDelim (c : Char) : Bool :=
  c == ',' || c == ' '

/-- The audience splitting loop (lines 235-244).  The source's do/while over
`pos` skips runs of delimiter characters and emits each maximal run of
non-delimiter characters (`substr(pos, next_pos - pos)`), discarding empty
fragments.  This structural recursion walks the same characters once,
accumulating the current run in `cur` (reversed) and emitting it when a
delimiter or the end of the value is reached; empty runs are never emitted,
which is the loop's `next_aud.empty()` test. -/
def splitAudienceAux (cur : List Char) : List Char → List String
  | [] => if cur = [] then [] else [String.mk cur.reverse]
  | c :: cs =>
    if isDelim c then
      if cur = [] then splitAudienceAux [] cs
      else String.mk cur.reverse :: splitAudienceAux [] cs
    else splitAudienceAux (c :: cur) cs

/-- Splitting of a raw `audience` value. -/
def splitAudience (s : String) : List String :=
  splitAudienceAux [] s.data

/-- The loop over the elements of a parsed `audience_json` array (lines
258-264): append each string element to the accumulated audience list,
aborting (early `return false`) on the first non-string element. -/
def appendJsonStrings (acc : List String) : List JVal → Except Unit (List String)
  | [] => .ok acc
  | v :: rest =>
    match v with
    | .str s => appendJsonStrings (acc ++ [s]) rest
    | _ => .error ()

/-- The body of `Reconfig`'s section loop (lines 227-266) for one section:
on a section whose lowercased name starts with "global", split a non-empty
`audience` value and append it, then handle a non-empty `audience_json`
value through the JSON parser `jp` (error, non-array, and non-string-element
all abort the reload).  Other sections contribute nothing. -/
def perSection (jp : String → Except String JVal) (acc : List String) (sec : IniSection) :
    Except Unit (List String) :=
  if isGlobalSection sec.name then
    let acc1 := if sec.audience ≠ "" then acc ++ splitAudience sec.audience else acc
    if sec.audience_json ≠ "" then
      match jp sec.audience_json with
      | .error _ => .error ()
      | .ok v =>
        match v with
        | .arr elems => appendJsonStrings acc1 elems
        | _ => .error ()
    else .ok acc1
  else .ok acc

/-- `Reconfig`'s section loop over all sections, threading the local
`audiences` vector; an `error` is one of the early `return false` paths. -/
def processSections (jp : String → Except String JVal) :
    List IniSection → List String → Except Unit (List String)
  | [], acc => .ok acc
  | sec :: rest, acc =>
    match perSection jp acc sec with
    | .error e => .error e
    | .ok acc1 => processSections jp rest acc1

/-- `XrdAccSciTokens::Reconfig` (lines 211-270), parameterized by the JSON
parser `jp` (picojson) and the parsed configuration `cfg` (INIReader).  The
local `audiences` vector is moved into `m_audiences` only on the single
success path (lines 268-269); every failure path returns `false` before that
assignment, leaving the state untouched. -/
def ReconfigWith (jp : String → Except String JVal) (cfg : IniParse)
    (st : XrdAccSciTokensState) : Bool × XrdAccSciTokensState :=
  match cfg with
  | .openFail => (false, st)
  | .lineFail _ => (false, st)
  | .ok secs =>
    match processSections jp secs [] with
    | .error _ => (false, st)
    | .ok audiences => (true, { st with m_audiences := audiences })

/-- The contribution of a single section to the audience list (used to state
that the final list is the concatenation, in file order, of the matching
sections' values). -/
def secContrib (jp : String → Except String JVal) (sec : IniSection) :
    Except Unit (List String) :=
  perSection jp [] sec

/-- The contributions of all sections in file order (each section processed
with an empty accumulator), with the reload-aborting errors propagated; used
to state that the final audience list is the concatenation of the matching
sections' values in file order. -/
def contribsOf (jp : String → Except String JVal) :
    List IniSection → Except Unit (List (List String))
  | [] => .ok []
  | sec :: rest =>
    match secContrib jp sec with
    | .error e => .error e
    | .ok c =>
      match contribsOf jp rest with
      | .error e => .error e
      | .ok cs => .ok (c :: cs)

/-- picojson's behavior on the two concrete `audience_json` inputs the
verified examples use, modelled at the interface boundary. -/
def picojsonOn : String → Except String JVal :=
  fun s =>
    if s = "[\"x\",\"y\"]" then .ok (.arr [.str "x", .str "y"])
    else if s = "[1,2]" then .ok (.arr [.num 1, .num 2])
    else .error "input not modelled"

/-- The `XrdAccSciTokens` constructor (lines 133-141): `m_map` starts empty,
`m_next_clean` is `monotonic_time() + m_expiry_secs`, and the body runs
`Reconfig()` (whose result is ignored there). -/
def XrdAccSciTokens_init (jp : String → Except String JVal) (cfg : IniParse)
    (now0 : Nat) : XrdAccSciTokensState :=
  (ReconfigWith jp cfg ⟨[], now0 + m_expiry_secs, []⟩).2

/-- Lock and cache-map events, used to state which `m_map` operations of one
`Access` call run under `m_mutex`. -/
inductive CacheEv where
  | lock
  | unlock
  | sweepMapPass
  | mapFindEv
  | mapInsertEv
  deriving DecidableEq, Repr

/-- The events of `XrdAccSciTokens::Check` (lines 272-281): when the sweep is
due, the begin/iterate/erase pass over `m_map`; `Check` contains no
`lock_guard`, so the pass emits no lock events. -/
def CheckEvents (due : Bool) : List CacheEv :=
  if due then [.sweepMapPass] else []

/-- The lock/map events of one `Access` call with a token (lines 154-181), in
source order: `Check(now)` (line 156, before any guard), then the guarded
find (lines 157-163: `lock_guard` scope around `m_map.find`), then on a miss
with a successful validator the guarded insert (lines 179-181). -/
def AccessEvents (due hit genOk : Bool) : List CacheEv :=
  CheckEvents due ++ [.lock, .mapFindEv, .unlock] ++
    (if hit then [] else if genOk then [.lock, .mapInsertEv, .unlock] else [])

/-- Number of locks held just before the event at index `i` (acquires minus
releases among the preceding events; the source never nests the guard). -/
def locksHeld (tr : List CacheEv) (i : Nat) : Nat :=
  (tr.take i).count .lock - (tr.take i).count .unlock

/-- Which events touch `m_map`. -/
def isMapAccess : CacheEv → Bool
  | .sweepMapPass => true
  | .mapFindEv => true
  | .mapInsertEv => true
  | _ => false
/-- `AddPriv` is "or in the mapped bit of the rule's operation". -/
theorem AddPriv_eq_lor (op : Access_Operation) (a : Nat) :
    AddPriv op a = a ||| opPriv op := by
  cases op <;> simp [AddPriv, opPriv]

/-- The byte-for-byte comparison performed by `apply`'s `compare` call is the
prefix test. -/
theorem take_eq_iff_isPrefixOf (pre l : List Char) :
    (l.take pre.length = pre) ↔ pre.isPrefixOf l := by
  rw [List.isPrefixOf_iff_prefix, List.prefix_iff_eq_take, eq_comm]

theorem apply_foldl_filter (path : String) (l : AccessRulesRaw) (a : Nat) :
    l.foldl
        (fun privs rule =>
          if path.data.take rule.2.data.length = rule.2.data then AddPriv rule.1 privs
          else privs) a
      = (l.filter (fun r => r.2.data.isPrefixOf path.data)).foldl
          (fun acc r => acc ||| opPriv r.1) a := by
  induction l generalizing a with
  | nil => rfl
  | cons r rest ih =>
    by_cases h : path.data.take r.2.data.length = r.2.data
    · have hb : r.2.data.isPrefixOf path.data = true := (take_eq_iff_isPrefixOf _ _).1 h
      simp only [List.foldl_cons]
      rw [if_pos h, AddPriv_eq_lor, ih, List.filter_cons, if_pos hb]
      simp only [List.foldl_cons]
    · have hb : r.2.data.isPrefixOf path.data = false := by
        rw [Bool.eq_false_iff]
        exact fun hc => h ((take_eq_iff_isPrefixOf _ _).2 hc)
      simp only [List.foldl_cons]
      rw [if_neg h, ih, List.filter_cons, if_neg (by simp [hb])]

/-- C1: `XrdAccRules::apply` returns the bitwise union of the mapped
privilege of every stored rule whose path is a byte-for-byte prefix of the
requested path; the requested operation argument is accepted but never used
to filter matches.  In particular rules `[(Read, "/data/"),
(Create, "/data/public/")]` applied to `"/data/public/file.txt"` yield
`Read ||| Create`, and applied to `"/other/file.txt"` yield the none mask. -/
theorem apply_matches_by_path_only :
    (∀ (rs : XrdAccRules) (op op' : Access_Operation) (path : String),
        rs.apply op path = rs.apply op' path) ∧
    (∀ (rs : XrdAccRules) (op : Access_Operation) (path : String),
        rs.apply op path =
          (rs.m_rules.filter (fun r => r.2.data.isPrefixOf path.data)).foldl
            (fun acc r => acc ||| opPriv r.1) XrdAccPriv_None) ∧
    XrdAccRules.apply ⟨[(.AOP_Read, "/data/"), (.AOP_Create, "/data/public/")], 0, ""⟩
        .AOP_Any "/data/public/file.txt" = (XrdAccPriv_Read ||| XrdAccPriv_Create) ∧
    XrdAccRules.apply ⟨[(.AOP_Read, "/data/"), (.AOP_Create, "/data/public/")], 0, ""⟩
        .AOP_Any "/other/file.txt" = XrdAccPriv_None := by
  refine ⟨fun rs op op' path => rfl, fun rs op path => apply_foldl_filter path rs.m_rules _, ?_, ?_⟩
  · decide
  · decide

/-- C2 (exhibit of the code bug): `Check` tests `now <= m_next_clean`
(line 274) but never writes `m_next_clean`, so after the constructor's
initial deadline (`now0 + m_expiry_secs`, here `40 + 60 = 100`) passes, every
decision call performs the sweep: the calls at `now = 101` and `now = 102` —
one second apart, inside the same 60-second interval — both pass the gate,
and the state after the first sweep still has `m_next_clean = 100` instead of
the specified `now + interval`. -/
theorem check_sweeps_again_without_reschedule :
    XrdAccSciTokens_init picojsonOn .openFail 40 = ⟨[], 100, []⟩ ∧
    sweepDue 101 ⟨[], 100, []⟩ = true ∧
    Check 101 ⟨[], 100, []⟩ = some ⟨[], 100, []⟩ ∧
    sweepDue 102 ⟨[], 100, []⟩ = true := by
  exact ⟨rfl, rfl, rfl, rfl⟩

/-- C3 (exhibit of the code bug): in the event trace of an `Access` call for
which the sweep is due, the sweep's iterate-and-erase pass over `m_map`
(emitted by `Check`, line 156, which contains no `lock_guard`) occurs while
zero locks are held, while the guarded find (lines 157-163) and insert
(lines 179-181) do hold the lock. -/
theorem sweep_map_pass_runs_unlocked :
    AccessEvents true false false = [.sweepMapPass, .lock, .mapFindEv, .unlock] ∧
    isMapAccess .sweepMapPass = true ∧
    locksHeld (AccessEvents true false false) 0 = 0 ∧
    AccessEvents false false true =
      [.lock, .mapFindEv, .unlock, .lock, .mapInsertEv, .unlock] ∧
    locksHeld (AccessEvents false false true) 1 = 1 ∧
    locksHeld (AccessEvents false false true) 4 = 1 := by
  decide

/-- C4 (exhibit of the code bug): on a due sweep over a cache holding one
expired entry, the loop erases the entry through `iter` and then increments
the invalidated iterator — undefined behavior (`Check` evaluates to `none` in
the model) — instead of cleanly removing every expired entry; on a cache
whose entries are all unexpired the pass is defined and removes nothing. -/
theorem sweep_undefined_on_expired_entry :
    Check 200 ⟨[("tok", ⟨[], 100, "u"⟩)], 100, []⟩ = none ∧
    Check 200 ⟨[("tok", ⟨[], 300, "u"⟩)], 100, []⟩ =
      some ⟨[("tok", ⟨[], 300, "u"⟩)], 100, []⟩ := by
  exact ⟨rfl, rfl⟩

/-- Any RuleSet taken from the cache by the guarded lookup is unexpired. -/
theorem lookupValid_not_expired (now : Nat) (st : XrdAccSciTokensState) (tok : String)
    (rs : XrdAccRules) (h : lookupValid now st tok = some rs) :
    rs.expired now = false := by
  unfold lookupValid at h
  cases hf : mapFind st.m_map tok with
  | none => simp [hf] at h
  | some rs0 =>
    simp only [hf] at h
    by_cases he : rs0.expired now = true
    · simp [he] at h
    · simp only [if_neg he] at h
      cases h
      exact Bool.eq_false_iff.mpr he

/-- C5: `expired(now)` is false for `now ≤ expiry` and true for `now >
expiry`; every RuleSet that `Access`'s resolution step hands to the apply
stage is unexpired at `now` (a fresh one has expiry `now + cache_expiry`);
and when the cached entry for the token is expired, resolution takes the
validator branch (`GenerateAcls`) instead of reusing the entry. -/
theorem expired_strict_and_never_served :
    (∀ (rs : XrdAccRules) (now : Nat),
        (now ≤ rs.m_expiry_time → rs.expired now = false) ∧
        (rs.m_expiry_time < now → rs.expired now = true)) ∧
    (∀ (gen : AclGenerator) (now : Nat) (st st' : XrdAccSciTokensState)
        (tok : String) (rs : XrdAccRules),
        resolveRules gen now st tok = (some rs, st') → rs.expired now = false) ∧
    (∀ (gen : AclGenerator) (now : Nat) (st : XrdAccSciTokensState)
        (tok : String) (rs : XrdAccRules),
        mapFind st.m_map tok = some rs → rs.expired now = true →
        resolveRules gen now st tok = genBranch gen now tok st) := by
  refine ⟨fun rs now => ⟨fun h => ?_, fun h => ?_⟩, ?_, ?_⟩
  · simp [XrdAccRules.expired]; omega
  · simp [XrdAccRules.expired]; omega
  · intro gen now st st' tok rs h
    unfold resolveRules at h
    cases hl : lookupValid now st tok with
    | some rs0 =>
      simp only [hl, Prod.mk.injEq, Option.some.injEq] at h
      obtain ⟨rfl, rfl⟩ := h
      exact lookupValid_not_expired now st tok rs0 hl
    | none =>
      simp only [hl] at h
      unfold genBranch at h
      cases hg : gen tok with
      | none => simp [hg] at h
      | some r =>
        obtain ⟨d, rl, u⟩ := r
        simp only [hg, Prod.mk.injEq, Option.some.injEq] at h
        obtain ⟨rfl, rfl⟩ := h
        simp [XrdAccRules.expired]
  · intro gen now st tok rs hf he
    simp [resolveRules, lookupValid, hf, he]

/-- Witness for C5 at concrete inputs: expiry 5 is not expired at 3, is
expired at 7, and an expired cache entry forces the validator branch. -/
theorem expired_strict_and_never_served_app :
    XrdAccRules.expired ⟨[], 5, ""⟩ 3 = false ∧
    XrdAccRules.expired ⟨[], 5, ""⟩ 7 = true ∧
    resolveRules (fun _ => none) 9 ⟨[("t", ⟨[], 5, ""⟩)], 0, []⟩ "t" =
      genBranch (fun _ => none) 9 "t" ⟨[("t", ⟨[], 5, ""⟩)], 0, []⟩ := by
  refine ⟨(expired_strict_and_never_served.1 ⟨[], 5, ""⟩ 3).1 (by decide),
          (expired_strict_and_never_served.1 ⟨[], 5, ""⟩ 7).2 (by decide),
          expired_strict_and_never_served.2.2 (fun _ => none) 9
            ⟨[("t", ⟨[], 5, ""⟩)], 0, []⟩ "t" ⟨[], 5, ""⟩ rfl (by decide)⟩

/-- C6: when the resolved RuleSet applies to the none mask, `Access` returns
the chained authorizer's answer for the request (with the entity as updated
by the identity step), and `XrdAccPriv_None` when no chain is configured
(`chainOrNone` is exactly that alternative). -/
theorem none_priv_delegates_to_chain :
    ∀ {ε : Type} (gen : AclGenerator) (chain : Option (ChainAuthz ε))
      (st st1 st2 : XrdAccSciTokensState) (now : Nat) (Entity : XrdSecEntity ε)
      (tok path : String) (oper : Access_Operation) (rs : XrdAccRules),
      Check now st = some st1 →
      resolveRules gen now st1 tok = (some rs, st2) →
      rs.apply oper path = XrdAccPriv_None →
      AccessWith gen chain st now Entity (some tok) path oper =
        some ⟨chainOrNone chain (identityUpdate rs.m_username Entity) (some tok) path oper,
              st2, identityUpdate rs.m_username Entity⟩ := by
  intro ε gen chain st st1 st2 now Entity tok path oper rs h1 h2 h3
  simp [AccessWith, h1, h2, h3]

/-- Witness for C6: a valid cached entry with no rules applies to the none
mask, and the call returns the chain's answer 7. -/
theorem none_priv_delegates_to_chain_app :
    AccessWith (fun _ => none) (some (fun _ _ _ _ => 7))
        ⟨[("t", ⟨[], 100, ""⟩)], 100, []⟩ 50 (⟨none, ()⟩ : XrdSecEntity Unit)
        (some "t") "/p" .AOP_Read =
      some ⟨7, ⟨[("t", ⟨[], 100, ""⟩)], 100, []⟩, ⟨none, ()⟩⟩ := by
  have h := none_priv_delegates_to_chain (fun _ => none) (some (fun _ _ _ _ => 7))
    ⟨[("t", ⟨[], 100, ""⟩)], 100, []⟩ ⟨[("t", ⟨[], 100, ""⟩)], 100, []⟩
    ⟨[("t", ⟨[], 100, ""⟩)], 100, []⟩ 50 ⟨none, ()⟩ "t" "/p" .AOP_Read
    ⟨[], 100, ""⟩ rfl rfl rfl
  simpa using h

/-- A non-string element anywhere in the array makes the element loop abort. -/
theorem appendJsonStrings_error_of_nonstr (l : List JVal) (v : JVal) (hv : v ∈ l)
    (hns : ∀ s, v ≠ JVal.str s) :
    ∀ acc, appendJsonStrings acc l = .error () := by
  induction l with
  | nil => cases hv
  | cons w rest ih =>
    intro acc
    rcases List.mem_cons.mp hv with h | h
    · subst h
      cases v with
      | str s => exact absurd rfl (hns s)
      | num n => rfl
      | bool b => rfl
      | null => rfl
      | arr l2 => rfl
      | obj o => rfl
    · cases w with
      | str s => exact ih h (acc ++ [s])
      | num n => rfl
      | bool b => rfl
      | null => rfl
      | arr l2 => rfl
      | obj o => rfl

/-- If one section aborts the reload for every accumulator, the whole section
loop aborts. -/
theorem processSections_error_of_mem (jp : String → Except String JVal)
    (sec : IniSection) (secs : List IniSection) (hmem : sec ∈ secs)
    (hfail : ∀ acc, perSection jp acc sec = .error ()) :
    ∀ acc, processSections jp secs acc = .error () := by
  induction secs with
  | nil => cases hmem
  | cons s rest ih =>
    intro acc
    rcases List.mem_cons.mp hmem with h | h
    · cases h
      simp [processSections, hfail acc]
    · cases hps : perSection jp acc s with
      | error e => cases e; simp [processSections, hps]
      | ok acc1 => simp [processSections, hps, ih h]

/-- A global-like section whose `audience_json` fails to parse, parses to a
non-array, or contains a non-string element aborts the reload for every
accumulator. -/
theorem perSection_error_cases (jp : String → Except String JVal) (sec : IniSection)
    (hg : isGlobalSection sec.name = true) (hne : sec.audience_json ≠ "")
    (hbad : (∃ e, jp sec.audience_json = .error e) ∨
            (∃ v, jp sec.audience_json = .ok v ∧ ∀ l, v ≠ JVal.arr l) ∨
            (∃ l v, jp sec.audience_json = .ok (.arr l) ∧ v ∈ l ∧ ∀ s, v ≠ JVal.str s)) :
    ∀ acc, perSection jp acc sec = .error () := by
  intro acc
  rcases hbad with ⟨e, he⟩ | ⟨v, hv, hna⟩ | ⟨l, v, hl, hv, hns⟩
  · simp [perSection, hg, hne, he]
  · cases v with
    | arr l2 => exact absurd rfl (hna l2)
    | str s => simp [perSection, hg, hne, hv]
    | num n => simp [perSection, hg, hne, hv]
    | bool b => simp [perSection, hg, hne, hv]
    | null => simp [perSection, hg, hne, hv]
    | obj o => simp [perSection, hg, hne, hv]
  · simp [perSection, hg, hne, hl]
    exact appendJsonStrings_error_of_nonstr l v hv hns _

/-- C7: reconfiguration is atomic.  Whenever `Reconfig` returns failure the
state (in particular `m_audiences`) is exactly the prior state; open and
parse errors of the configuration file fail that way, and so does any
global-like section whose `audience_json` does not parse, is not an array,
or has a non-string element.  The new list is installed only on the single
success path. -/
theorem reconfig_atomic_on_failure :
    ∀ (jp : String → Except String JVal) (st : XrdAccSciTokensState),
      (∀ cfg, (ReconfigWith jp cfg st).1 = false → (ReconfigWith jp cfg st).2 = st) ∧
      ReconfigWith jp .openFail st = (false, st) ∧
      (∀ n, ReconfigWith jp (.lineFail n) st = (false, st)) ∧
      (∀ (secs : List IniSection) (sec : IniSection), sec ∈ secs →
        isGlobalSection sec.name = true → sec.audience_json ≠ "" →
        ((∃ e, jp sec.audience_json = .error e) ∨
         (∃ v, jp sec.audience_json = .ok v ∧ ∀ l, v ≠ JVal.arr l) ∨
         (∃ l v, jp sec.audience_json = .ok (.arr l) ∧ v ∈ l ∧ ∀ s, v ≠ JVal.str s)) →
        ReconfigWith jp (.ok secs) st = (false, st)) := by
  intro jp st
  refine ⟨fun cfg h => ?_, rfl, fun n => rfl, fun secs sec hmem hg hne hbad => ?_⟩
  · cases cfg with
    | openFail => rfl
    | lineFail n => rfl
    | ok secs =>
      unfold ReconfigWith at h ⊢
      cases hp : processSections jp secs [] with
      | error e => simp [hp]
      | ok auds => simp [hp] at h
  · have hfail := perSection_error_cases jp sec hg hne hbad
    have herr := processSections_error_of_mem jp sec secs hmem hfail []
    simp [ReconfigWith, herr]

/-- Witness for C7: `audience_json = [1,2]` in a global section aborts the
reload and leaves the previous audience list in place. -/
theorem reconfig_atomic_on_failure_app :
    ReconfigWith picojsonOn (.ok [⟨"global", "", "[1,2]"⟩]) ⟨[], 0, ["old"]⟩ =
      (false, ⟨[], 0, ["old"]⟩) := by
  exact (reconfig_atomic_on_failure picojsonOn ⟨[], 0, ["old"]⟩).2.2.2
    [⟨"global", "", "[1,2]"⟩] ⟨"global", "", "[1,2]"⟩ (by simp) (by decide) (by decide)
    (Or.inr (Or.inr ⟨[.num 1, .num 2], .num 2, rfl, by simp,
      fun s h => JVal.noConfusion h⟩))

/-- Every string element of a JSON array is appended, in order. -/
theorem appendJsonStrings_str_map (ss : List String) :
    ∀ acc, appendJsonStrings acc (ss.map JVal.str) = .ok (acc ++ ss) := by
  induction ss with
  | nil => intro acc; simp [appendJsonStrings]
  | cons s rest ih =>
    intro acc
    simp only [List.map_cons, appendJsonStrings, ih (acc ++ [s])]
    simp

/-- The element loop's accumulator only ever grows by appending on the
right. -/
theorem appendJsonStrings_shift (l : List JVal) :
    ∀ acc, appendJsonStrings acc l = (appendJsonStrings [] l).map (fun r => acc ++ r) := by
  induction l with
  | nil => intro acc; simp [appendJsonStrings, Except.map]
  | cons v rest ih =>
    intro acc
    cases v with
    | str s =>
      simp only [appendJsonStrings]
      rw [ih (acc ++ [s]), ih ([] ++ [s])]
      cases appendJsonStrings [] rest <;> simp [Except.map, List.append_assoc]
    | num n => rfl
    | bool b => rfl
    | null => rfl
    | arr l2 => rfl
    | obj o => rfl

theorem appendJsonStrings_append (l : List JVal) (acc1 acc2 : List String) :
    appendJsonStrings (acc1 ++ acc2) l =
      (appendJsonStrings acc2 l).map (fun r => acc1 ++ r) := by
  rw [appendJsonStrings_shift l (acc1 ++ acc2), appendJsonStrings_shift l acc2]
  cases appendJsonStrings [] l <;> simp [Except.map, List.append_assoc]

/-- One section's processing shifts by the incoming accumulator. -/
theorem perSection_shift (jp : String → Except String JVal) (sec : IniSection)
    (acc : List String) :
    perSection jp acc sec = (secContrib jp sec).map (fun r => acc ++ r) := by
  unfold secContrib perSection
  by_cases hg : isGlobalSection sec.name = true
  · by_cases hj : sec.audience_json ≠ ""
    · cases hjp : jp sec.audience_json with
      | error e => by_cases ha : sec.audience ≠ "" <;> simp [hg, hj, hjp, ha, Except.map]
      | ok v =>
        cases v with
        | arr elems =>
          by_cases ha : sec.audience ≠ ""
          · simp only [if_pos hg, if_pos hj, if_pos ha, hjp]
            rw [show ([] ++ splitAudience sec.audience) = splitAudience sec.audience by simp]
            exact appendJsonStrings_append elems acc (splitAudience sec.audience)
          · simp only [if_pos hg, if_pos hj, if_neg ha, hjp]
            exact appendJsonStrings_shift elems acc
        | str s => by_cases ha : sec.audience ≠ "" <;> simp [hg, hj, hjp, ha, Except.map]
        | num n => by_cases ha : sec.audience ≠ "" <;> simp [hg, hj, hjp, ha, Except.map]
        | bool b => by_cases ha : sec.audience ≠ "" <;> simp [hg, hj, hjp, ha, Except.map]
        | null => by_cases ha : sec.audience ≠ "" <;> simp [hg, hj, hjp, ha, Except.map]
        | obj o => by_cases ha : sec.audience ≠ "" <;> simp [hg, hj, hjp, ha, Except.map]
    · have hj' : sec.audience_json = "" := not_not.mp hj
      by_cases ha : sec.audience ≠ "" <;> simp [hg, hj', ha, Except.map]
  · simp [hg, Except.map]

/-- The section loop computes the in-order concatenation of the sections'
contributions on top of the incoming accumulator. -/
theorem processSections_eq_contribs (jp : String → Except String JVal) :
    ∀ (secs : List IniSection) (acc : List String),
      processSections jp secs acc =
        (contribsOf jp secs).map (fun ls => acc ++ ls.flatten) := by
  intro secs
  induction secs with
  | nil => intro acc; simp [processSections, contribsOf, Except.map]
  | cons sec rest ih =>
    intro acc
    simp only [processSections, contribsOf]
    rw [perSection_shift]
    cases hc : secContrib jp sec with
    | error e => cases e; simp [Except.map]
    | ok c =>
      simp only [Except.map]
      rw [ih (acc ++ c)]
      cases hm : contribsOf jp rest <;> simp [Except.map, List.append_assoc]

/-- C8: audience parsing.  `audience = alice, bob carol` splits on commas and
spaces with empty fragments discarded; a JSON-array `audience_json` appends
every string element; the final `m_audiences` is the concatenation of all
matching sections' values in file order (`contribsOf` lists the per-section
contributions in file order; non-matching sections contribute `[]`); a
section name matches when it case-insensitively starts with "global"; and
`audience_json = [1,2]` aborts the reload as a configuration error. -/
theorem audience_parsing_behavior :
    ∀ (st : XrdAccSciTokensState),
      splitAudience "alice, bob carol" = ["alice", "bob", "carol"] ∧
      (∀ (ss : List String) (acc : List String),
        appendJsonStrings acc (ss.map JVal.str) = .ok (acc ++ ss)) ∧
      ReconfigWith picojsonOn (.ok [⟨"GLOBAL cfg", "", "[\"x\",\"y\"]"⟩]) st =
        (true, { st with m_audiences := ["x", "y"] }) ∧
      ReconfigWith picojsonOn (.ok [⟨"global", "alice, bob carol", ""⟩]) st =
        (true, { st with m_audiences := ["alice", "bob", "carol"] }) ∧
      (∀ (jp : String → Except String JVal) (secs : List IniSection)
          (ls : List (List String)),
        contribsOf jp secs = .ok ls →
        ReconfigWith jp (.ok secs) st = (true, { st with m_audiences := ls.flatten })) ∧
      ReconfigWith picojsonOn
          (.ok [⟨"global", "alice, bob carol", ""⟩, ⟨"Global2", "", "[\"x\",\"y\"]"⟩]) st =
        (true, { st with m_audiences := ["alice", "bob", "carol", "x", "y"] }) ∧
      ReconfigWith picojsonOn (.ok [⟨"global", "", "[1,2]"⟩]) st = (false, st) := by
  intro st
  refine ⟨rfl, fun ss acc => appendJsonStrings_str_map ss acc, rfl, rfl, ?_, rfl, rfl⟩
  intro jp secs ls h
  simp [ReconfigWith, processSections_eq_contribs, h, Except.map]

/-- Witness for C8 at concrete inputs: the empty section list reloads
successfully with the empty concatenation. -/
theorem audience_parsing_behavior_app :
    ReconfigWith picojsonOn (.ok []) ⟨[], 0, ["z"]⟩ = (true, ⟨[], 0, []⟩) := by
  exact (audience_parsing_behavior ⟨[], 0, ["z"]⟩).2.2.2.2.1 picojsonOn [] [] rfl

/-- C9: the only caller-visible mutation a decision performs is on the
entity's identity field, exactly when the resolved RuleSet's username is
non-empty and the entity has no name yet (`identityUpdate`); every other
field (`rest`) and every other case leaves the entity unchanged. -/
theorem access_entity_frame :
    ∀ {ε : Type} (gen : AclGenerator) (chain : Option (ChainAuthz ε))
      (st : XrdAccSciTokensState) (now : Nat) (Entity : XrdSecEntity ε)
      (authz : Option String) (path : String) (oper : Access_Operation)
      (out : AccessResult ε),
      AccessWith gen chain st now Entity authz path oper = some out →
      out.entity =
        (match resolvedRules gen now st authz Entity with
         | some rs => identityUpdate rs.m_username Entity
         | none => Entity) ∧
      out.entity.rest = Entity.rest ∧
      (∀ u : String,
        (identityUpdate u Entity).rest = Entity.rest ∧
        (¬(u ≠ "" ∧ Entity.name = none) → identityUpdate u Entity = Entity) ∧
        ((u ≠ "" ∧ Entity.name = none) → identityUpdate u Entity = ⟨some u, Entity.rest⟩)) := by
  intro ε gen chain st now Entity authz path oper out h
  have hiu : ∀ u : String,
      (identityUpdate u Entity).rest = Entity.rest ∧
      (¬(u ≠ "" ∧ Entity.name = none) → identityUpdate u Entity = Entity) ∧
      ((u ≠ "" ∧ Entity.name = none) → identityUpdate u Entity = ⟨some u, Entity.rest⟩) := by
    intro u
    by_cases hc : u ≠ "" ∧ Entity.name = none
    · exact ⟨by simp [identityUpdate, hc], fun hn => absurd hc hn,
        fun _ => by simp [identityUpdate, hc]⟩
    · exact ⟨by simp [identityUpdate, hc], fun _ => by simp [identityUpdate, hc],
        fun hcc => absurd hcc hc⟩
  have hmain : out.entity =
      (match resolvedRules gen now st authz Entity with
       | some rs => identityUpdate rs.m_username Entity
       | none => Entity) := by
    cases authz with
    | none =>
      simp only [AccessWith, Option.some.injEq] at h
      simp [resolvedRules, ← h]
    | some tok =>
      simp only [AccessWith] at h
      cases hC : Check now st with
      | none => simp [hC] at h
      | some st1 =>
        simp only [hC] at h
        cases hR : resolveRules gen now st1 tok with
        | mk o st2 =>
          cases o with
          | none =>
            simp only [hR, Option.some.injEq] at h
            simp [resolvedRules, hC, hR, ← h]
          | some rs =>
            simp only [hR, Option.some.injEq] at h
            simp [resolvedRules, hC, hR, ← h]
  refine ⟨hmain, ?_, hiu⟩
  rw [hmain]
  cases resolvedRules gen now st authz Entity with
  | none => rfl
  | some rs => exact (hiu rs.m_username).1

/-- Witness for C9: a fresh RuleSet with username "alice" and an entity with
no name — the call assigns the name and preserves the rest of the entity. -/
theorem access_entity_frame_app :
    ((⟨some "alice", 42⟩ : XrdSecEntity Nat) =
      (match resolvedRules (fun _ => some (10, [], "alice")) 50 ⟨[], 100, []⟩
          (some "t") (⟨none, 42⟩ : XrdSecEntity Nat) with
       | some rs => identityUpdate rs.m_username (⟨none, 42⟩ : XrdSecEntity Nat)
       | none => (⟨none, 42⟩ : XrdSecEntity Nat))) ∧
    (42 : Nat) = (42 : Nat) := by
  have h := access_entity_frame (fun _ => some (10, [], "alice"))
    (none : Option (ChainAuthz Nat)) ⟨[], 100, []⟩ 50 ⟨none, 42⟩ (some "t") "/p"
    .AOP_Read ⟨0, ⟨[("t", ⟨[], 60, "alice"⟩)], 100, []⟩, ⟨some "alice", 42⟩⟩ rfl
  exact ⟨h.1, h.2.1⟩

/-- C10: with this repository's stub `GenerateAcls` (always "not
applicable"), `Access` from an empty cache is observationally the chained
authorizer alone: it returns exactly the chain's answer (`XrdAccPriv_None`
when no chain is configured), leaves the whole state — in particular the
empty cache map — unchanged, and never modifies the entity. -/
theorem stub_access_equals_chain :
    ∀ {ε : Type} (chain : Option (ChainAuthz ε)) (st : XrdAccSciTokensState)
      (now : Nat) (Entity : XrdSecEntity ε) (authz : Option String)
      (path : String) (oper : Access_Operation),
      st.m_map = [] →
      Access chain st now Entity authz path oper =
        some ⟨chainOrNone chain Entity authz path oper, st, Entity⟩ := by
  intro ε chain st now Entity authz path oper h
  obtain ⟨m, nc, aud⟩ := st
  simp only at h
  subst h
  cases authz with
  | none => rfl
  | some tok =>
    have hc : Check now ⟨[], nc, aud⟩ = some ⟨[], nc, aud⟩ := by
      unfold Check
      by_cases hd : now ≤ nc
      · simp [hd]
      · simp [hd, sweepPass]
    simp [Access, AccessWith, hc, resolveRules, lookupValid, mapFind, genBranch,
      GenerateAcls]

/-- Witness for C10: a token-carrying call at a time past the sweep deadline,
with a chain answering 5, returns 5 and leaves state and entity unchanged. -/
theorem stub_access_equals_chain_app :
    Access (some (fun _ _ _ _ => 5)) ⟨[], 100, []⟩ 123
        (⟨none, ()⟩ : XrdSecEntity Unit) (some "tok") "/x" .AOP_Read =
      some ⟨5, ⟨[], 100, []⟩, ⟨none, ()⟩⟩ := by
  exact stub_access_equals_chain (some (fun _ _ _ _ => 5)) ⟨[], 100, []⟩ 123
    ⟨none, ()⟩ (some "tok") "/x" .AOP_Read rfl
